import Mathlib

/-!
Shallow embedding of the multisig module of the iota-sdk repository
(src/src/multisig/mod.rs) together with models of the collaborators it
uses (ternary codec, sponge primitives, bundle/transaction structures,
input validators).  Collaborator code is not part of the given sources;
each such definition carries a doc comment starting with
"Modelled from the spec:".  Rust strings are embedded as List Char,
machine integers as Int/Nat, and fallible or panicking code returns the
RRes type below.
-/

set_option maxRecDepth 1000000

namespace Multisig

/-- Result of a Rust call in the model: `ok` for `Ok`, `err` for a typed
`Err`, and `panicked` for an abort caused by out-of-bounds slicing or a
`copy_from_slice` length mismatch. -/
inductive RRes (α : Type) where
  | ok (a : α)
  | err (e : String)
  | panicked
  deriving DecidableEq, Repr

/-- Errors raised by `initiate_transfer` (the `ensure!`/`format_err!`
sites of the source, by position). -/
inductive TransferError where
  | invalidAddress
  | invalidRemainderAddress
  | invalidTransfers
  | insufficientBalance
  | noSignatureRequired
  deriving DecidableEq, Repr

/-- Result of `initiate_transfer` in the model. -/
inductive TRes (α : Type) where
  | ok (a : α)
  | err (e : TransferError)
  deriving DecidableEq, Repr

/- ---------------------------------------------------------------- -/
/- Ternary codec (crate::utils::converter)                           -/
/- ---------------------------------------------------------------- -/

/-- Modelled from the spec: the codec maps each symbol of the tryte
alphabet to a group of three balanced ternary digits; a symbol carries a
value in [-13, 13] ('9' is the null symbol of value 0, 'A'..'Z' cover the
remaining values). -/
def tryteValue (c : Char) : Int :=
  if c = '9' then 0
  else if 'A' ≤ c ∧ c ≤ 'Z' then
    (if c.toNat - 64 ≤ 13 then ((c.toNat : Int) - 64) else ((c.toNat : Int) - 64) - 27)
  else 0

/-- Modelled from the spec: whether a character belongs to the tryte
alphabet. -/
def isTryteChar (c : Char) : Bool :=
  c = '9' || ('A' ≤ c && c ≤ 'Z')

/-- Modelled from the spec: symbol of a value in [-13, 13]. -/
def charOfValue (v : Int) : Char :=
  if v = 0 then '9'
  else if 0 < v then Char.ofNat (64 + v.toNat)
  else Char.ofNat (64 + (v + 27).toNat)

/-- Modelled from the spec: the three balanced ternary digits of a
symbol's value (least significant first); characters outside the
alphabet decode to the null group. -/
def charToTrits (c : Char) : List Int :=
  let v := tryteValue c
  let t0 : Int := (v + 1) % 3 - 1
  let r := (v - t0) / 3
  let t1 : Int := (r + 1) % 3 - 1
  let t2 := (r - t1) / 3
  [t0, t1, t2]

/-- converter::trits_from_string: decode a symbolic string to trits,
three trits per character. -/
def trits_from_string (s : List Char) : List Int :=
  s.flatMap charToTrits

/-- converter::trits_from_string_with_length: decode and then pad with
zeros / truncate to exactly `n` trits. -/
def trits_from_string_with_length (s : List Char) (n : Nat) : List Int :=
  let t := trits_from_string s
  (t.take n) ++ List.replicate (n - t.length) 0

/-- converter::trytes: re-encode trits as symbols, three trits per
symbol (a trailing group of fewer than three trits is dropped, as in the
source's index loop). -/
def trytes : List Int → List Char
  | t0 :: t1 :: t2 :: rest => charOfValue (t0 + 3 * t1 + 9 * t2) :: trytes rest
  | _ => []

/- ---------------------------------------------------------------- -/
/- Sponge primitives (crate::crypto)                                 -/
/- ---------------------------------------------------------------- -/

def HASH_LENGTH : Nat := 243
def STATE_LENGTH : Nat := 729

/-- Modelled from the spec: a sponge absorbs input in chunks of at most
`HASH_LENGTH` trits by overwriting the low part of the state with the
chunk and then applying the variant's internal permutation.  The `fuel`
argument only drives structural recursion; every call site passes the
input length, which bounds the number of chunks. -/
def absorbWithFuel (transform : List Int → List Int) :
    Nat → List Int → List Int → List Int
  | _, state, [] => state
  | 0, state, _ => state
  | fuel + 1, state, input =>
      let chunk := input.take HASH_LENGTH
      absorbWithFuel transform fuel (transform (chunk ++ state.drop chunk.length))
        (input.drop HASH_LENGTH)

/-- Sponge absorption of a whole input. -/
def absorbChunks (transform : List Int → List Int) (state input : List Int) : List Int :=
  absorbWithFuel transform input.length state input

/-- Modelled from the spec: squeezing yields the first `HASH_LENGTH`
trits of the state. -/
def squeezeHash (state : List Int) : List Int :=
  state.take HASH_LENGTH

/-- Modelled from the spec: the Curl variant's internal permutation.
The concrete permutation is external to the given sources; it is
modelled as a state rotation, which preserves the state width and the
trit range. -/
def curlTransform (s : List Int) : List Int :=
  s.rotate 1

/-- Modelled from the spec: the Kerl variant's internal permutation,
with the same interface as Curl but a different permutation. -/
def kerlTransform (s : List Int) : List Int :=
  (s.rotate 2).map (fun x => -x)

/-- Zero sponge state. -/
def zeroState : List Int := List.replicate STATE_LENGTH 0

/- ---------------------------------------------------------------- -/
/- Address builder functions (src/src/multisig/mod.rs)               -/
/- ---------------------------------------------------------------- -/

/-- `validate_address` (mod.rs lines 51..59): absorb every digest into a
fresh Kerl sponge, squeeze an address, compare with the candidate. -/
def validate_address (address : List Char) (digests : List (List Char)) : RRes Bool :=
  let final := digests.foldl
    (fun st d => absorbChunks kerlTransform st (trits_from_string d)) zeroState
  .ok (trytes (squeezeHash final) == address)

/-- `add_address_digest` (mod.rs lines 234..249): decode the digest to
`3 * |digest|` trits, decode the prior state (or use zeros when the
state string is empty) to the same width, load the first `STATE_LENGTH`
trits into a fresh Curl, absorb the digest and re-encode the state.
The slice `curl_state[0..STATE_LENGTH]` panics when the digest is
shorter than `STATE_LENGTH / 3` symbols. -/
def add_address_digest (digest_trytes curl_state_trytes : List Char) : RRes (List Char) :=
  let offset := digest_trytes.length * 3
  let digest := trits_from_string_with_length digest_trytes offset
  let curl_state :=
    if curl_state_trytes.isEmpty then List.replicate offset 0
    else trits_from_string_with_length curl_state_trytes offset
  if STATE_LENGTH ≤ offset then
    .ok (trytes (absorbChunks curlTransform (curl_state.take STATE_LENGTH) digest))
  else
    .panicked

/-- `finalize_address` (mod.rs lines 252..259): decode the state string
and load it into a fresh Curl via `copy_from_slice` (which panics unless
exactly `STATE_LENGTH` trits were decoded), then squeeze the address. -/
def finalize_address (curl_state_trytes : List Char) : RRes (List Char) :=
  let curl_state := trits_from_string curl_state_trytes
  if curl_state.length = STATE_LENGTH then
    .ok (trytes (squeezeHash curl_state))
  else
    .panicked

/- ---------------------------------------------------------------- -/
/- Constants and string helpers (crate::utils)                       -/
/- ---------------------------------------------------------------- -/

def MESSAGE_LENGTH : Nat := 2187
def TAG_LENGTH : Nat := 27

/-- Length of one key fragment in trits (the literal 6561 of
`add_signature`). -/
def KEY_FRAGMENT_LENGTH : Nat := 6561

/-- utils::right_pad_string: push `pad` until the string reaches length
`n` (a longer string is left unchanged). -/
def right_pad_string (s : List Char) (n : Nat) (pad : Char) : List Char :=
  s ++ List.replicate (n - s.length) pad

/- ---------------------------------------------------------------- -/
/- Data model (crate::model)                                         -/
/- ---------------------------------------------------------------- -/

/-- Modelled from the spec: a transfer request holds a destination
address, a signed value, an optional message and an optional tag. -/
structure Transfer where
  address : List Char
  value : Int
  message : List Char
  tag : Option (List Char)
  deriving DecidableEq, Repr

/-- Modelled from the spec: the bundle entry fields this module reads
or writes — group length recorded on the first entry of each appended
group, address, value, tag, timestamp, the signature-fragment slot and
the bundle hash filled in by finalization. -/
structure Transaction where
  signature_message_length : Nat
  address : List Char
  value : Int
  tag : List Char
  timestamp : Int
  signature_fragments : Option (List Char)
  bundle : Option (List Char)
  deriving DecidableEq, Repr

/-- The all-nine sentinel marking an unsigned fragment slot. -/
def SIGNATURE_SENTINEL : List Char := List.replicate MESSAGE_LENGTH '9'

/-- Modelled from the spec: the bundle hash computed by the bundle
collaborator's finalize step; the hash function itself is external to
the given sources, so a fixed stand-in value of the correct width is
used (no settled claim depends on the hash value). -/
def BUNDLE_HASH_STANDIN : List Char := List.replicate 81 '9'

/-- Modelled from the spec: Bundle::add_entry appends
`signature_message_length` consecutive entries sharing the address, tag
and timestamp; the first carries the value and the group length, the
others value 0; fragment slots start empty. -/
def add_entry_group (n : Nat) (addr : List Char) (value : Int) (tag : List Char)
    (timestamp : Int) : List Transaction :=
  (List.range n).map fun i =>
    { signature_message_length := if i = 0 then n else 0
      address := addr
      value := if i = 0 then value else 0
      tag := tag
      timestamp := timestamp
      signature_fragments := none
      bundle := none }

/-- An entry as left by the bundle collaborator's finalize step. -/
def withHash (tx : Transaction) : Transaction :=
  { tx with bundle := some BUNDLE_HASH_STANDIN }

/-- An entry whose fragment slot holds the unsigned sentinel. -/
def withSentinel (tx : Transaction) : Transaction :=
  { tx with signature_fragments := some SIGNATURE_SENTINEL }

/-- Modelled from the spec: Bundle::finalize computes the bundle hash
and fills the linking fields of every entry. -/
def bundle_finalize (l : List Transaction) : List Transaction :=
  l.map withHash

/-- Modelled from the spec: Bundle::add_trytes attaches the pre-built
message fragments positionally; an entry without a corresponding
non-empty fragment receives the all-nine sentinel. -/
def bundle_add_trytes : List Transaction → List (List Char) → List Transaction
  | [], _ => []
  | tx :: rest, [] => withSentinel tx :: bundle_add_trytes rest []
  | tx :: rest, f :: fs =>
      { tx with
        signature_fragments := some (if f.isEmpty then SIGNATURE_SENTINEL else f) }
        :: bundle_add_trytes rest fs

/-- Modelled from the spec: the normalized bundle hash is a row of 81
values partitioned downstream into 3 equal chunks; the normalization
itself is external, modelled as the per-symbol values of the hash
padded to 81 symbols. -/
def normalized_bundle (hash : List Char) : List Int :=
  ((right_pad_string hash 81 '9').take 81).map tryteValue

/-- Modelled from the spec: signFragment produces a signature fragment
from a normalized-hash chunk and a key chunk; the derivation is
external, modelled as a rotation of the key chunk driven by the hash
chunk. -/
def signature_fragment (bundleFragment keyFragment : List Int) : List Int :=
  keyFragment.rotate (bundleFragment.headD 0).natAbs

/- ---------------------------------------------------------------- -/
/- Input validators (crate::utils::input_validator, utils)           -/
/- ---------------------------------------------------------------- -/

/-- Modelled from the spec: a string over the tryte alphabet. -/
def is_trytes (s : List Char) : Bool :=
  s.all isTryteChar

/-- Modelled from the spec: an address is a hash-width (81 symbol)
tryte string, optionally carrying a 9-symbol checksum (90 symbols). -/
def is_address (s : List Char) : Bool :=
  is_trytes s && (s.length == 81 || s.length == 90)

/-- Modelled from the spec: the unsigned sentinel test — a tryte string
consisting solely of the null symbol. -/
def is_nine_trytes (s : List Char) : Bool :=
  is_trytes s && s.all (· == '9')

/-- Modelled from the spec: strip the checksum suffix from a
checksummed (90 symbol) address, otherwise return it unchanged. -/
def remove_checksum (addr : List Char) : List Char :=
  if is_trytes addr && addr.length == 90 then addr.take 81 else addr

/-- Modelled from the spec: structural well-formedness of one transfer
(valid destination address, tryte message, tryte tag of at most tag
width, non-negative value). -/
def is_valid_transfer (t : Transfer) : Bool :=
  is_address t.address && is_trytes t.message && is_trytes (t.tag.getD [])
    && decide ((t.tag.getD []).length ≤ TAG_LENGTH) && decide (0 ≤ t.value)

/-- Modelled from the spec: every transfer of the collection is
structurally well-formed. -/
def is_transfers_collection_valid (ts : List Transfer) : Bool :=
  ts.all is_valid_transfer

/- ---------------------------------------------------------------- -/
/- initiate_transfer (mod.rs lines 68..178)                          -/
/- ---------------------------------------------------------------- -/

/-- The in-place checksum stripping of mod.rs lines 77..79. -/
def stripTransfer (t : Transfer) : Transfer :=
  { t with address := remove_checksum t.address }

/-- The padded tag of a transfer (mod.rs lines 128..129). -/
def padTag (t : Transfer) : List Char :=
  right_pad_string (t.tag.getD []) TAG_LENGTH '9'

/-- The fragment-splitting while loop of mod.rs lines 108..118, with a
structural fuel bounded by the message length. -/
def fragmentLoopFuel : Nat → List Char → List (List Char)
  | _, [] => []
  | 0, _ => []
  | fuel + 1, msg =>
      right_pad_string (msg.take MESSAGE_LENGTH) MESSAGE_LENGTH '9'
        :: fragmentLoopFuel fuel (msg.drop MESSAGE_LENGTH)

def fragmentLoop (msg : List Char) : List (List Char) :=
  fragmentLoopFuel msg.length msg

/-- `signature_message_length` computed for one transfer
(mod.rs lines 102..106). -/
def smlOf (msg : List Char) : Nat :=
  if MESSAGE_LENGTH < msg.length then 1 + msg.length / MESSAGE_LENGTH else 1

/-- The message fragments pushed for one transfer
(mod.rs lines 103..127). -/
def fragsOf (msg : List Char) : List (List Char) :=
  if MESSAGE_LENGTH < msg.length then fragmentLoop msg
  else [right_pad_string (msg.take MESSAGE_LENGTH) MESSAGE_LENGTH '9']

/-- Accumulator of the per-transfer loop of mod.rs lines 101..138:
collected bundle entries, collected signature fragments, the running
`tag` variable and the running `total_value`. -/
structure TransferAcc where
  entries : List Transaction
  frags : List (List Char)
  tag : List Char
  total : Int
  deriving DecidableEq, Repr

/-- One iteration of the per-transfer loop. -/
def transferStep (now : Int) (acc : TransferAcc) (t : Transfer) : TransferAcc :=
  { entries := acc.entries ++ add_entry_group (smlOf t.message) t.address t.value (padTag t) now
    frags := acc.frags ++ fragsOf t.message
    tag := padTag t
    total := acc.total + t.value }

/-- The whole per-transfer loop. -/
def processTransfers (ts : List Transfer) (now : Int) : TransferAcc :=
  ts.foldl (transferStep now) ⟨[], [], [], 0⟩

/-- Observable outcome of `initiate_transfer`: the returned value or
error, whether the balance endpoint was queried, and the caller's
transfer list after the call (the function mutates it in place). -/
structure InitOut where
  result : TRes (List Transaction)
  queried : Bool
  transfersAfter : List Transfer
  deriving DecidableEq, Repr

/-- `initiate_transfer` (mod.rs lines 68..178).  Timestamps
(`Utc::now()`) are supplied as the `now` parameter; the balance the
node would report is supplied as `fetched_balance` (the transport is
assumed to succeed, which only matters on the query path). -/
def initiate_transfer (security_sum : Nat) (balance : Option Int)
    (address remainder_address : List Char) (transfers : List Transfer)
    (fetched_balance : Int) (now : Int) : InitOut :=
  let ts := transfers.map stripTransfer
  if is_address address then
    if is_address remainder_address then
      if is_transfers_collection_valid ts then
        let acc := processTransfers ts now
        if acc.total ≠ 0 then
          let queried := balance.isNone
          let total_balance := balance.getD fetched_balance
          let withInput :=
            if 0 < total_balance then
              acc.entries ++
                add_entry_group security_sum address (0 - total_balance) acc.tag now
            else acc.entries
          if acc.total ≤ total_balance then
            let withRem :=
              if acc.total < total_balance then
                withInput ++
                  add_entry_group 1 remainder_address (total_balance - acc.total) acc.tag now
              else withInput
            ⟨.ok (bundle_add_trytes (bundle_finalize withRem) acc.frags), queried, ts⟩
          else ⟨.err .insufficientBalance, queried, ts⟩
        else ⟨.err .noSignatureRequired, false, ts⟩
      else ⟨.err .invalidTransfers, false, ts⟩
    else ⟨.err .invalidRemainderAddress, false, ts⟩
  else ⟨.err .invalidAddress, false, ts⟩

/- ---------------------------------------------------------------- -/
/- add_signature (mod.rs lines 185..231)                             -/
/- ---------------------------------------------------------------- -/

/-- Chunk `k` of the normalized bundle hash
(mod.rs lines 205..207). -/
def normalizedChunk (norm : List Int) (k : Nat) : List Int :=
  (norm.drop (k * 27)).take 27

/-- The inner fragment loop `for j in 1..security` of mod.rs lines
217..225; indexing `bundle_to_sign.bundle_mut()[i + j]` and the key
slice panic when out of range. -/
def signRest (keyTrits norm : List Int) (numSigned i : Nat) :
    Nat → Nat → List Transaction → RRes (List Transaction)
  | 0, _, b => .ok b
  | fuel + 1, j, b =>
      if (j + 1) * KEY_FRAGMENT_LENGTH ≤ keyTrits.length then
        if h : i + j < b.length then
          let next_fragment := (keyTrits.drop (j * KEY_FRAGMENT_LENGTH)).take KEY_FRAGMENT_LENGTH
          let next_bundle_fragment := normalizedChunk norm ((numSigned + j) % 3)
          let next_signed := signature_fragment next_bundle_fragment next_fragment
          signRest keyTrits norm numSigned i fuel (j + 1)
            (b.set (i + j)
              { b[i + j] with signature_fragments := some (trytes next_signed) })
        else .panicked
      else .panicked

/-- The scan loop `for i in 0..bundle.len()` of mod.rs lines 190..229,
with a structural fuel equal to the bundle length.  A matching entry
whose fragment slot passes `is_nine_trytes` bumps the signed counter;
otherwise the entry group starting there is signed and the loop breaks
(`key[0..6561]` panics when the key is too short). -/
def addSigScan (input_address : List Char) (keyTrits : List Int) (security : Nat) :
    Nat → Nat → Nat → List Transaction → RRes (List Transaction)
  | 0, _, _, b => .ok b
  | fuel + 1, i, numSigned, b =>
      if h : i < b.length then
        let tx := b[i]
        if tx.address == input_address then
          if is_nine_trytes (tx.signature_fragments.getD []) then
            addSigScan input_address keyTrits security fuel (i + 1) (numSigned + 1) b
          else
            if KEY_FRAGMENT_LENGTH ≤ keyTrits.length then
              let norm := normalized_bundle (tx.bundle.getD [])
              let first_fragment := keyTrits.take KEY_FRAGMENT_LENGTH
              let first_bundle_fragment := normalizedChunk norm (numSigned % 3)
              let first_signed := signature_fragment first_bundle_fragment first_fragment
              let b1 := b.set i
                { tx with signature_fragments := some (trytes first_signed) }
              signRest keyTrits norm numSigned i (security - 1) 1 b1
            else .panicked
        else addSigScan input_address keyTrits security fuel (i + 1) numSigned b
      else .ok b

/-- `add_signature` (mod.rs lines 185..231): scans the caller's bundle
and returns the bundle as left by the call. -/
def add_signature (bundle : List Transaction) (input_address key : List Char) :
    RRes (List Transaction) :=
  let security := key.length / MESSAGE_LENGTH
  let keyTrits := trits_from_string key
  addSigScan input_address keyTrits security bundle.length 0 0 bundle

/-- Whether a call returned `Ok`. -/
def RRes.isOk {α : Type} : RRes α → Bool
  | .ok _ => true
  | _ => false

/- ---------------------------------------------------------------- -/
/- Lemmas: codec                                                     -/
/- ---------------------------------------------------------------- -/

theorem charToTrits_length (c : Char) : (charToTrits c).length = 3 := rfl

theorem trits_from_string_length (s : List Char) :
    (trits_from_string s).length = 3 * s.length := by
  induction s with
  | nil => rfl
  | cons c rest ih =>
      simp only [trits_from_string, List.flatMap_cons] at *
      simp [ih, charToTrits_length, List.length_append]
      omega

theorem trytes_cons3 (t0 t1 t2 : Int) (rest : List Int) :
    trytes (t0 :: t1 :: t2 :: rest) = charOfValue (t0 + 3 * t1 + 9 * t2) :: trytes rest := rfl

theorem trytes_append3 (l rest : List Int) (h : l.length = 3) :
    trytes (l ++ rest) = trytes l ++ trytes rest := by
  obtain ⟨a, b, c, rfl⟩ := List.length_eq_three.mp h
  rfl

/-- Re-encoding the decoding of a repeated symbol gives the symbol
back, provided the single-symbol round trip holds. -/
theorem trytes_trits_replicate (c : Char) (h : trytes (charToTrits c) = [c]) :
    ∀ n, trytes (trits_from_string (List.replicate n c)) = List.replicate n c := by
  intro n
  induction n with
  | zero => rfl
  | succ m ih =>
      rw [List.replicate_succ, trits_from_string, List.flatMap_cons]
      rw [trytes_append3 _ _ (charToTrits_length c), h]
      rw [show (List.replicate m c).flatMap charToTrits
            = trits_from_string (List.replicate m c) from rfl]
      rw [ih]
      rfl

/- ---------------------------------------------------------------- -/
/- Lemmas: message splitting                                         -/
/- ---------------------------------------------------------------- -/

theorem right_pad_string_length (s : List Char) (n : Nat) (c : Char) :
    (right_pad_string s n c).length = max s.length n := by
  simp [right_pad_string]
  omega

theorem fragmentLoopFuel_nil (fuel : Nat) : fragmentLoopFuel fuel [] = [] := by
  cases fuel <;> rfl

theorem fragmentLoopFuel_cons (fuel : Nat) (c : Char) (rest : List Char) :
    fragmentLoopFuel (fuel + 1) (c :: rest) =
      right_pad_string ((c :: rest).take MESSAGE_LENGTH) MESSAGE_LENGTH '9'
        :: fragmentLoopFuel fuel ((c :: rest).drop MESSAGE_LENGTH) := rfl

theorem fragmentLoopFuel_congr :
    ∀ f1 f2 msg, msg.length ≤ f1 → msg.length ≤ f2 →
      fragmentLoopFuel f1 msg = fragmentLoopFuel f2 msg := by
  intro f1
  induction f1 with
  | zero =>
      intro f2 msg h1 _
      have : msg = [] := List.eq_nil_of_length_eq_zero (Nat.le_zero.mp h1)
      subst this
      rw [fragmentLoopFuel_nil, fragmentLoopFuel_nil]
  | succ f ih =>
      intro f2 msg h1 h2
      cases msg with
      | nil => rw [fragmentLoopFuel_nil, fragmentLoopFuel_nil]
      | cons c rest =>
          cases f2 with
          | zero => simp at h2
          | succ f2' =>
              rw [fragmentLoopFuel_cons, fragmentLoopFuel_cons]
              have hd : ((c :: rest).drop MESSAGE_LENGTH).length ≤ f := by
                simp only [List.length_drop, List.length_cons, MESSAGE_LENGTH]
                simp only [List.length_cons] at h1
                omega
              have hd2 : ((c :: rest).drop MESSAGE_LENGTH).length ≤ f2' := by
                simp only [List.length_drop, List.length_cons, MESSAGE_LENGTH]
                simp only [List.length_cons] at h2
                omega
              rw [ih f2' _ hd hd2]

theorem fragmentLoop_cons (c : Char) (rest : List Char) :
    fragmentLoop (c :: rest) =
      right_pad_string ((c :: rest).take MESSAGE_LENGTH) MESSAGE_LENGTH '9'
        :: fragmentLoop ((c :: rest).drop MESSAGE_LENGTH) := by
  unfold fragmentLoop
  rw [show (c :: rest).length = rest.length + 1 from rfl, fragmentLoopFuel_cons]
  congr 1
  apply fragmentLoopFuel_congr
  · simp only [List.length_drop, List.length_cons, MESSAGE_LENGTH]
    omega
  · exact Nat.le_refl _

theorem fragmentLoopFuel_length :
    ∀ fuel msg, msg.length ≤ fuel →
      (fragmentLoopFuel fuel msg).length = (msg.length + (MESSAGE_LENGTH - 1)) / MESSAGE_LENGTH := by
  intro fuel
  induction fuel with
  | zero =>
      intro msg h
      have : msg = [] := List.eq_nil_of_length_eq_zero (Nat.le_zero.mp h)
      subst this
      rw [fragmentLoopFuel_nil]
      rfl
  | succ f ih =>
      intro msg h
      cases msg with
      | nil => rw [fragmentLoopFuel_nil]; rfl
      | cons c rest =>
          rw [fragmentLoopFuel_cons]
          have hd : ((c :: rest).drop MESSAGE_LENGTH).length ≤ f := by
            simp only [List.length_drop, List.length_cons, MESSAGE_LENGTH]
            simp only [List.length_cons] at h
            omega
          rw [List.length_cons, ih _ hd]
          simp only [List.length_drop, List.length_cons, MESSAGE_LENGTH]
          omega

theorem fragmentLoop_length (msg : List Char) :
    (fragmentLoop msg).length = (msg.length + (MESSAGE_LENGTH - 1)) / MESSAGE_LENGTH :=
  fragmentLoopFuel_length msg.length msg (Nat.le_refl _)

theorem fragmentLoopFuel_get? :
    ∀ fuel msg i, msg.length ≤ fuel →
      i < (fragmentLoopFuel fuel msg).length →
      (fragmentLoopFuel fuel msg).get? i =
        some (right_pad_string ((msg.drop (MESSAGE_LENGTH * i)).take MESSAGE_LENGTH)
          MESSAGE_LENGTH '9') := by
  intro fuel
  induction fuel with
  | zero =>
      intro msg i h hi
      have : msg = [] := List.eq_nil_of_length_eq_zero (Nat.le_zero.mp h)
      subst this
      rw [fragmentLoopFuel_nil] at hi
      simp at hi
  | succ f ih =>
      intro msg i h hi
      cases msg with
      | nil => rw [fragmentLoopFuel_nil] at hi; simp at hi
      | cons c rest =>
          cases i with
          | zero =>
              rw [fragmentLoopFuel_cons]
              simp
          | succ i' =>
              rw [fragmentLoopFuel_cons]
              have hd : ((c :: rest).drop MESSAGE_LENGTH).length ≤ f := by
                simp only [List.length_drop, List.length_cons, MESSAGE_LENGTH]
                simp only [List.length_cons] at h
                omega
              rw [fragmentLoopFuel_cons] at hi
              simp only [List.length_cons, Nat.succ_lt_succ_iff] at hi
              rw [List.get?_cons_succ, ih _ i' hd hi]
              rw [List.drop_drop]
              congr 3
              ring_nf

/-- Number of fragments produced for one message. -/
theorem fragsOf_length (m : List Char) :
    (fragsOf m).length =
      if MESSAGE_LENGTH < m.length then (m.length + (MESSAGE_LENGTH - 1)) / MESSAGE_LENGTH
      else 1 := by
  unfold fragsOf
  split
  · exact fragmentLoop_length m
  · rfl

/-- The fragment count never exceeds the recorded
`signature_message_length`; they differ (by exactly one) only when the
message length is a proper multiple of the fragment width. -/
theorem fragsOf_le_smlOf (m : List Char) : (fragsOf m).length ≤ smlOf m := by
  rw [fragsOf_length]
  unfold smlOf
  split
  · simp only [MESSAGE_LENGTH] at *
    omega
  · exact Nat.le_refl _

/- ---------------------------------------------------------------- -/
/- Lemmas: appended entry groups and bundle transforms               -/
/- ---------------------------------------------------------------- -/

theorem add_entry_group_length (n : Nat) (a : List Char) (v : Int) (tg : List Char) (ts : Int) :
    (add_entry_group n a v tg ts).length = n := by
  simp [add_entry_group]

theorem add_entry_group_get? (n : Nat) (a : List Char) (v : Int) (tg : List Char) (ts : Int)
    (j : Nat) (h : j < n) :
    (add_entry_group n a v tg ts)[j]? = some
      { signature_message_length := if j = 0 then n else 0
        address := a
        value := if j = 0 then v else 0
        tag := tg
        timestamp := ts
        signature_fragments := none
        bundle := none } := by
  simp [add_entry_group, List.getElem?_map, List.getElem?_range, h]

theorem mem_add_entry_group (n : Nat) (a : List Char) (v : Int) (tg : List Char) (ts : Int)
    (tx : Transaction) (h : tx ∈ add_entry_group n a v tg ts) :
    tx.address = a ∧ tx.tag = tg ∧ tx.timestamp = ts := by
  simp only [add_entry_group, List.mem_map, List.mem_range] at h
  obtain ⟨i, _, rfl⟩ := h
  exact ⟨rfl, rfl, rfl⟩

theorem withHash_address (tx : Transaction) : (withHash tx).address = tx.address := rfl

theorem withHash_tag (tx : Transaction) : (withHash tx).tag = tx.tag := rfl

theorem withSentinel_address (tx : Transaction) : (withSentinel tx).address = tx.address := rfl

theorem withSentinel_tag (tx : Transaction) : (withSentinel tx).tag = tx.tag := rfl

theorem bundle_finalize_length (l : List Transaction) :
    (bundle_finalize l).length = l.length := by
  simp [bundle_finalize]

theorem bundle_finalize_get? (l : List Transaction) (i : Nat) :
    (bundle_finalize l)[i]? = (l[i]?).map withHash := by
  simp [bundle_finalize, List.getElem?_map]

theorem bundle_finalize_drop (l : List Transaction) (n : Nat) :
    (bundle_finalize l).drop n = bundle_finalize (l.drop n) := by
  simp [bundle_finalize, List.map_drop]

theorem bundle_add_trytes_nil_frags :
    ∀ l : List Transaction, bundle_add_trytes l [] = l.map withSentinel := by
  intro l
  induction l with
  | nil => rfl
  | cons tx rest ih => simp [bundle_add_trytes, ih]

theorem bundle_add_trytes_length :
    ∀ (l : List Transaction) (f : List (List Char)),
      (bundle_add_trytes l f).length = l.length := by
  intro l
  induction l with
  | nil => intro f; cases f <;> rfl
  | cons tx rest ih =>
      intro f
      cases f with
      | nil => simp [bundle_add_trytes, ih]
      | cons g fs => simp [bundle_add_trytes, ih]

theorem bundle_add_trytes_get?_of_le :
    ∀ (l : List Transaction) (f : List (List Char)) (i : Nat), f.length ≤ i →
      (bundle_add_trytes l f)[i]? = (l[i]?).map withSentinel := by
  intro l
  induction l with
  | nil => intro f i _; cases f <;> rfl
  | cons tx rest ih =>
      intro f i hle
      cases f with
      | nil =>
          rw [bundle_add_trytes_nil_frags, List.getElem?_map]
      | cons g fs =>
          cases i with
          | zero => simp at hle
          | succ i' =>
              simp only [bundle_add_trytes, List.getElem?_cons_succ]
              apply ih
              simpa using hle

theorem bundle_add_trytes_drop_of_le :
    ∀ (l : List Transaction) (f : List (List Char)) (n : Nat), f.length ≤ n →
      (bundle_add_trytes l f).drop n = (l.drop n).map withSentinel := by
  intro l
  induction l with
  | nil => intro f n _; cases f <;> simp [bundle_add_trytes]
  | cons tx rest ih =>
      intro f n hle
      cases n with
      | zero =>
          have : f = [] := List.eq_nil_of_length_eq_zero (Nat.le_zero.mp hle)
          subst this
          rw [bundle_add_trytes_nil_frags]
          simp
      | succ n' =>
          cases f with
          | nil =>
              simp only [bundle_add_trytes, List.drop_succ_cons]
              exact ih [] n' (by simp)
          | cons g fs =>
              simp only [bundle_add_trytes, List.drop_succ_cons]
              exact ih fs n' (by simpa using hle)

theorem bundle_add_trytes_map_address :
    ∀ (l : List Transaction) (f : List (List Char)),
      (bundle_add_trytes l f).map Transaction.address = l.map Transaction.address := by
  intro l
  induction l with
  | nil => intro f; cases f <;> rfl
  | cons tx rest ih =>
      intro f
      cases f with
      | nil => simp [bundle_add_trytes, ih, withSentinel]
      | cons g fs => simp [bundle_add_trytes, ih]

/- ---------------------------------------------------------------- -/
/- Lemmas: the per-transfer loop                                     -/
/- ---------------------------------------------------------------- -/

theorem foldl_transferStep (now : Int) :
    ∀ (ts : List Transfer) (acc : TransferAcc),
      ts.foldl (transferStep now) acc =
        { entries := acc.entries ++ ts.flatMap
            (fun t => add_entry_group (smlOf t.message) t.address t.value (padTag t) now)
          frags := acc.frags ++ ts.flatMap (fun t => fragsOf t.message)
          tag := ts.foldl (fun _a t => padTag t) acc.tag
          total := acc.total + (ts.map Transfer.value).sum } := by
  intro ts
  induction ts with
  | nil => intro acc; simp
  | cons t rest ih =>
      intro acc
      rw [List.foldl_cons, ih]
      simp [transferStep, List.flatMap_cons, List.append_assoc, add_assoc]

theorem processTransfers_entries (ts : List Transfer) (now : Int) :
    (processTransfers ts now).entries = ts.flatMap
      (fun t => add_entry_group (smlOf t.message) t.address t.value (padTag t) now) := by
  unfold processTransfers
  rw [foldl_transferStep]
  simp

theorem processTransfers_frags (ts : List Transfer) (now : Int) :
    (processTransfers ts now).frags = ts.flatMap (fun t => fragsOf t.message) := by
  unfold processTransfers
  rw [foldl_transferStep]
  simp

theorem processTransfers_total (ts : List Transfer) (now : Int) :
    (processTransfers ts now).total = (ts.map Transfer.value).sum := by
  unfold processTransfers
  rw [foldl_transferStep]
  simp

theorem foldl_const_last {α β : Type} (f : α → β) :
    ∀ (ts : List α) (t : α) (init : β), ts.getLast? = some t →
      ts.foldl (fun _a x => f x) init = f t := by
  intro ts
  induction ts with
  | nil => intro t init h; simp at h
  | cons a rest ih =>
      intro t init h
      cases rest with
      | nil =>
          simp at h
          subst h
          rfl
      | cons r rs =>
          rw [List.getLast?_cons_cons] at h
          rw [List.foldl_cons]
          exact ih t (f a) h

theorem processTransfers_tag (ts : List Transfer) (now : Int) (h : ts ≠ []) :
    (processTransfers ts now).tag = padTag (ts.getLast h) := by
  unfold processTransfers
  rw [foldl_transferStep]
  exact foldl_const_last padTag ts (ts.getLast h) [] (List.getLast?_eq_getLast ts h)

theorem processTransfers_frags_le_entries (ts : List Transfer) (now : Int) :
    (processTransfers ts now).frags.length ≤ (processTransfers ts now).entries.length := by
  rw [processTransfers_entries, processTransfers_frags]
  induction ts with
  | nil => simp
  | cons t rest ih =>
      simp only [List.flatMap_cons, List.length_append]
      have h1 : (fragsOf t.message).length ≤
          (add_entry_group (smlOf t.message) t.address t.value (padTag t) now).length := by
        rw [add_entry_group_length]
        exact fragsOf_le_smlOf t.message
      omega

/- ---------------------------------------------------------------- -/
/- Lemmas: initiate_transfer paths                                   -/
/- ---------------------------------------------------------------- -/

theorem initiate_transfersAfter (ss : Nat) (bal : Option Int) (addr rem : List Char)
    (transfers : List Transfer) (fetched now : Int) :
    (initiate_transfer ss bal addr rem transfers fetched now).transfersAfter
      = transfers.map stripTransfer := by
  unfold initiate_transfer
  dsimp only
  repeat' split
  all_goals rfl

theorem initiate_zero_total (ss : Nat) (bal : Option Int) (addr rem : List Char)
    (transfers : List Transfer) (fetched now : Int)
    (hA : is_address addr = true) (hR : is_address rem = true)
    (hV : is_transfers_collection_valid (transfers.map stripTransfer) = true)
    (h0 : (processTransfers (transfers.map stripTransfer) now).total = 0) :
    initiate_transfer ss bal addr rem transfers fetched now
      = ⟨.err .noSignatureRequired, false, transfers.map stripTransfer⟩ := by
  unfold initiate_transfer
  simp [hA, hR, hV, h0]

theorem initiate_insufficient (ss : Nat) (b : Int) (addr rem : List Char)
    (transfers : List Transfer) (fetched now : Int)
    (hA : is_address addr = true) (hR : is_address rem = true)
    (hV : is_transfers_collection_valid (transfers.map stripTransfer) = true)
    (hne : (processTransfers (transfers.map stripTransfer) now).total ≠ 0)
    (hlt : b < (processTransfers (transfers.map stripTransfer) now).total) :
    initiate_transfer ss (some b) addr rem transfers fetched now
      = ⟨.err .insufficientBalance, false, transfers.map stripTransfer⟩ := by
  unfold initiate_transfer
  simp only [hA, hR, hV, if_true]
  rw [if_pos hne]
  rw [show ((some b : Option Int).getD fetched) = b from rfl]
  rw [if_neg (by omega : ¬ (processTransfers (transfers.map stripTransfer) now).total ≤ b)]
  rfl

theorem initiate_some_ok (ss : Nat) (b : Int) (addr rem : List Char)
    (transfers : List Transfer) (fetched now : Int)
    (hA : is_address addr = true) (hR : is_address rem = true)
    (hV : is_transfers_collection_valid (transfers.map stripTransfer) = true)
    (hpos : 0 < (processTransfers (transfers.map stripTransfer) now).total)
    (hle : (processTransfers (transfers.map stripTransfer) now).total ≤ b) :
    initiate_transfer ss (some b) addr rem transfers fetched now
      = ⟨.ok (bundle_add_trytes (bundle_finalize
            (if (processTransfers (transfers.map stripTransfer) now).total < b then
              ((processTransfers (transfers.map stripTransfer) now).entries ++
                add_entry_group ss addr (0 - b)
                  (processTransfers (transfers.map stripTransfer) now).tag now) ++
                add_entry_group 1 rem
                  (b - (processTransfers (transfers.map stripTransfer) now).total)
                  (processTransfers (transfers.map stripTransfer) now).tag now
            else
              (processTransfers (transfers.map stripTransfer) now).entries ++
                add_entry_group ss addr (0 - b)
                  (processTransfers (transfers.map stripTransfer) now).tag now))
            (processTransfers (transfers.map stripTransfer) now).frags),
          false, transfers.map stripTransfer⟩ := by
  unfold initiate_transfer
  simp only [hA, hR, hV, if_true]
  rw [if_pos (by omega : (processTransfers (transfers.map stripTransfer) now).total ≠ 0)]
  rw [show ((some b : Option Int).getD fetched) = b from rfl]
  rw [if_pos (by omega : (0 : Int) < b)]
  rw [if_pos hle]
  rfl

theorem add_entry_group_map_address (n : Nat) (a : List Char) (v : Int) (tg : List Char)
    (ts : Int) :
    (add_entry_group n a v tg ts).map Transaction.address = List.replicate n a := by
  unfold add_entry_group
  rw [List.map_map]
  rw [show (Transaction.address ∘ fun i : Nat =>
      ({ signature_message_length := if i = 0 then n else 0, address := a,
         value := if i = 0 then v else 0, tag := tg, timestamp := ts,
         signature_fragments := none, bundle := none } : Transaction)) = fun _ => a from rfl]
  rw [List.map_const', List.length_range]

theorem bundle_finalize_map_address (l : List Transaction) :
    (bundle_finalize l).map Transaction.address = l.map Transaction.address := by
  simp [bundle_finalize, List.map_map, Function.comp, withHash_address]

theorem mem_bundle_add_trytes :
    ∀ (l : List Transaction) (f : List (List Char)) (tx : Transaction),
      tx ∈ bundle_add_trytes l f →
      ∃ ty ∈ l, tx.address = ty.address ∧ tx.tag = ty.tag := by
  intro l
  induction l with
  | nil => intro f tx h; cases f <;> simp [bundle_add_trytes] at h
  | cons hd rest ih =>
      intro f tx h
      cases f with
      | nil =>
          rw [bundle_add_trytes_nil_frags] at h
          simp only [List.map_cons, List.mem_cons] at h
          rcases h with h | h
          · exact ⟨hd, List.mem_cons_self _ _, by simp [h, withSentinel_address],
              by simp [h, withSentinel_tag]⟩
          · rw [← bundle_add_trytes_nil_frags] at h
            obtain ⟨ty, hty, h1, h2⟩ := ih [] tx h
            exact ⟨ty, List.mem_cons_of_mem _ hty, h1, h2⟩
      | cons g fs =>
          simp only [bundle_add_trytes, List.mem_cons] at h
          rcases h with h | h
          · exact ⟨hd, List.mem_cons_self _ _, by simp [h], by simp [h]⟩
          · obtain ⟨ty, hty, h1, h2⟩ := ih fs tx h
            exact ⟨ty, List.mem_cons_of_mem _ hty, h1, h2⟩

theorem mem_bundle_finalize (l : List Transaction) (tx : Transaction)
    (h : tx ∈ bundle_finalize l) :
    ∃ ty ∈ l, tx.address = ty.address ∧ tx.tag = ty.tag := by
  simp only [bundle_finalize, List.mem_map] at h
  obtain ⟨ty, hty, rfl⟩ := h
  exact ⟨ty, hty, rfl, rfl⟩

/- ---------------------------------------------------------------- -/
/- Concrete inputs used by the evaluation theorems                   -/
/- ---------------------------------------------------------------- -/

/-- A well-formed destination address. -/
def destAddress : List Char := List.replicate 81 'A'

/-- A well-formed multisig input address. -/
def msigAddress : List Char := List.replicate 81 'B'

/-- A well-formed remainder address. -/
def remAddress : List Char := List.replicate 81 'C'

/-- A digest of the full absorbable width (243 symbols, i.e. one whole
sponge state). -/
def digestA : List Char := List.replicate 243 'A'

/-- The state produced by absorbing `digestA` into a fresh state. -/
def c1State : List Char :=
  match add_address_digest digestA [] with
  | .ok s => s
  | _ => []

/-- The address finalized from `c1State`. -/
def c1Address : List Char :=
  match finalize_address c1State with
  | .ok a => a
  | _ => []

/-- A valid transfer of value 5 with an empty message and tag TAG. -/
def c2Transfer : Transfer :=
  { address := destAddress, value := 5, message := [], tag := some ['T', 'A', 'G'] }

/-- A freshly initiated bundle: one transfer entry, a two-entry input
group at `msigAddress`, and a remainder entry. -/
def c2Out : InitOut :=
  initiate_transfer 2 (some 11) msigAddress remAddress [c2Transfer] 0 7

/-- The entry list of `c2Out`. -/
def c2Bundle : List Transaction :=
  match c2Out.result with
  | .ok l => l
  | .err _ => []

/-- A cosigner key of security level 2 (2 × 2187 symbols). -/
def cosignerKey : List Char := List.replicate (2 * MESSAGE_LENGTH) '9'

/-- A bundle entry at the input address whose fragment slot already
holds a non-sentinel value. -/
def c6Entry : Transaction :=
  { signature_message_length := 1
    address := msigAddress
    value := -5
    tag := List.replicate TAG_LENGTH '9'
    timestamp := 7
    signature_fragments := some (List.replicate MESSAGE_LENGTH 'B')
    bundle := some BUNDLE_HASH_STANDIN }

/-- A security-1 cosigner key. -/
def c6Key : List Char := List.replicate MESSAGE_LENGTH 'A'

/-- `add_signature` applied to the fully signed single-entry group. -/
def c6Result : RRes (List Transaction) := add_signature [c6Entry] msigAddress c6Key

/-- A transfer whose destination address carries a 9-symbol checksum. -/
def c9Transfer : Transfer :=
  { address := List.replicate 90 'A', value := 5, message := [], tag := none }

/-- A failing `initiate_transfer` call on the checksummed transfer
(balance 0 < total 5, so it errors). -/
def c9Out : InitOut :=
  initiate_transfer 2 (some 0) msigAddress remAddress [c9Transfer] 0 7

/-- A message whose length is exactly twice the fragment width. -/
def c4Message : List Char := List.replicate (2 * MESSAGE_LENGTH) 'A'

/-- A valid transfer carrying `c4Message`. -/
def c4Transfer : Transfer :=
  { address := destAddress, value := 1, message := c4Message, tag := none }

/-- `initiate_transfer` on the exact-multiple message (balance matches
the total, so the bundle is returned without a remainder entry). -/
def c4Out : InitOut :=
  initiate_transfer 1 (some 1) msigAddress remAddress [c4Transfer] 0 7

/-- The entry list of `c4Out`. -/
def c4Bundle : List Transaction :=
  match c4Out.result with
  | .ok l => l
  | .err _ => []

/- ---------------------------------------------------------------- -/
/- Claim theorems: initiate_transfer                                 -/
/- ---------------------------------------------------------------- -/

/-- C5: a structurally valid transfer list whose values sum to zero is
rejected with the no-signature-required error for every balance
override and every balance the node would have reported, and the
balance endpoint is never queried. -/
theorem C5_zero_total_rejected (security_sum : Nat) (balance : Option Int)
    (address remainder_address : List Char) (transfers : List Transfer)
    (fetched now : Int)
    (hA : is_address address = true) (hR : is_address remainder_address = true)
    (hV : is_transfers_collection_valid (transfers.map stripTransfer) = true)
    (hsum : (transfers.map Transfer.value).sum = 0) :
    (initiate_transfer security_sum balance address remainder_address transfers
        fetched now).result = .err .noSignatureRequired ∧
    (initiate_transfer security_sum balance address remainder_address transfers
        fetched now).queried = false := by
  have h0 : (processTransfers (transfers.map stripTransfer) now).total = 0 := by
    rw [processTransfers_total]
    rw [show (transfers.map stripTransfer).map Transfer.value
          = transfers.map Transfer.value by
        simp [List.map_map, Function.comp, stripTransfer]]
    exact hsum
  rw [initiate_zero_total security_sum balance address remainder_address transfers
    fetched now hA hR hV h0]
  exact ⟨rfl, rfl⟩

/-- C5 witness: the zero-value transfer is rejected without a balance
query on a concrete valid input. -/
theorem C5_zero_total_rejected_witness :
    (is_address msigAddress = true ∧ is_address remAddress = true ∧
      is_transfers_collection_valid
        ([{ address := destAddress, value := 0, message := [], tag := none }].map
          stripTransfer) = true ∧
      ([{ address := destAddress, value := 0, message := [], tag := none
            : Transfer }].map Transfer.value).sum = 0) ∧
    ((initiate_transfer 2 (some 99) msigAddress remAddress
        [{ address := destAddress, value := 0, message := [], tag := none }] 5 7).result
          = .err .noSignatureRequired ∧
      (initiate_transfer 2 (some 99) msigAddress remAddress
        [{ address := destAddress, value := 0, message := [], tag := none }] 5 7).queried
          = false) :=
  ⟨⟨by decide, by decide, by decide, by decide⟩,
    C5_zero_total_rejected 2 (some 99) msigAddress remAddress
      [{ address := destAddress, value := 0, message := [], tag := none }] 5 7
      (by decide) (by decide) (by decide) (by decide)⟩

theorem map_id_of_mem {α : Type} (f : α → α) :
    ∀ l : List α, (∀ x ∈ l, f x = x) → l.map f = l := by
  intro l
  induction l with
  | nil => intro _; rfl
  | cons x rest ih =>
      intro h
      rw [List.map_cons, h x (List.mem_cons_self _ _),
        ih (fun y hy => h y (List.mem_cons_of_mem _ hy))]

/-- C9 amended: besides the balance query and the Collaborative
Signer's bundle mutation, the only caller-visible mutation is
`initiate_transfer`'s in-place checksum stripping; a transfer list none
of whose addresses is a 90-symbol (checksummed) string is left
unchanged by the call, whatever its outcome. -/
theorem C9_frame_amended (ss : Nat) (bal : Option Int) (addr rem : List Char)
    (transfers : List Transfer) (fetched now : Int)
    (h : ∀ t ∈ transfers, t.address.length ≠ 90) :
    (initiate_transfer ss bal addr rem transfers fetched now).transfersAfter
      = transfers := by
  rw [initiate_transfersAfter]
  apply map_id_of_mem
  intro t ht
  have hlen := h t ht
  have hc : (is_trytes t.address && (t.address.length == 90)) = false := by
    have hb : (t.address.length == 90) = false := by
      simp [hlen]
    simp [hb]
  show { t with address := remove_checksum t.address } = t
  rw [show remove_checksum t.address = t.address by
    unfold remove_checksum
    rw [if_neg (by simp [hc])]]

/-- C9 witness: a concrete checksum-free transfer list is returned
unchanged. -/
theorem C9_frame_amended_witness :
    (∀ t ∈ [c2Transfer], t.address.length ≠ 90) ∧
    (initiate_transfer 2 (some 11) msigAddress remAddress [c2Transfer] 0 7).transfersAfter
      = [c2Transfer] :=
  ⟨by decide, C9_frame_amended 2 (some 11) msigAddress remAddress [c2Transfer] 0 7
    (by decide)⟩

/-- C3 (counterexample): in a concrete successful call with a surplus
balance, the returned entry sequence is transfer entry, the two input
entries at the multisig address, and the remainder entry last — i.e.
the remainder entry is appended after the multisig input entry, not
before it as the claim (following the spec's step order) states. -/
theorem C3_remainder_after_input_counterexample :
    c2Out.result = .ok c2Bundle ∧
    c2Bundle.map Transaction.address
      = [destAddress, msigAddress, msigAddress, remAddress] ∧
    (c2Bundle.get? 1).map Transaction.value = some (-11) ∧
    (c2Bundle.get? 3).map Transaction.value = some 6 ∧
    remAddress ≠ msigAddress ∧ remAddress ≠ destAddress := by
  refine ⟨by rfl, by rfl, by rfl, by rfl, by decide, by decide⟩

/-- The entry at offset `j` of the multisig input group, as it appears
in the returned bundle (finalized, fragment slot holding the unsigned
sentinel). -/
def inputEntryAt (ss : Nat) (addr : List Char) (b : Int) (tg : List Char) (now : Int)
    (j : Nat) : Transaction :=
  withSentinel (withHash
    { signature_message_length := if j = 0 then ss else 0
      address := addr
      value := if j = 0 then 0 - b else 0
      tag := tg
      timestamp := now
      signature_fragments := none
      bundle := none })

/-- The remainder entry of value `k`, as it appears in the returned
bundle. -/
def remainderEntry (rem : List Char) (k : Int) (tg : List Char) (now : Int) : Transaction :=
  withSentinel (withHash
    { signature_message_length := 1
      address := rem
      value := k
      tag := tg
      timestamp := now
      signature_fragments := none
      bundle := none })

/-- No entry produced by the per-transfer loop carries the remainder
address, provided no (stripped) transfer targets it. -/
theorem rem_not_mem_loop_addresses (TS : List Transfer) (now : Int) (rem : List Char)
    (hrt : ∀ t ∈ TS, t.address ≠ rem) :
    rem ∉ (processTransfers TS now).entries.map Transaction.address := by
  rw [processTransfers_entries]
  intro hmem
  rw [List.mem_map] at hmem
  obtain ⟨tz, htz, htza⟩ := hmem
  rw [List.mem_flatMap] at htz
  obtain ⟨t, ht, htz2⟩ := htz
  obtain ⟨ha, _, _⟩ := mem_add_entry_group _ _ _ _ _ _ htz2
  exact hrt t ht (by rw [← ha, htza])

/-- C3 amended: with a caller-supplied balance override `b` against a
valid positive-total transfer set, `initiate_transfer` fails with the
insufficient-balance error when `b` is below the total; returns a
bundle with no remainder entry and the `ss`-entry input group (first
entry of value `-b`) appended after the transfer entries when `b`
equals the total; and when `b` exceeds the total by `k` additionally
appends exactly one remainder entry of value `k` and group length 1 to
the remainder address — positioned after the multisig input group, not
before it as the claim states. -/
theorem C3_balance_boundary_amended (ss : Nat) (b : Int)
    (addr rem : List Char) (transfers : List Transfer) (fetched now : Int)
    (hA : is_address addr = true) (hR : is_address rem = true)
    (hV : is_transfers_collection_valid (transfers.map stripTransfer) = true)
    (hpos : 0 < (processTransfers (transfers.map stripTransfer) now).total)
    (hra : rem ≠ addr)
    (hrt : ∀ t ∈ transfers.map stripTransfer, t.address ≠ rem) :
    (b < (processTransfers (transfers.map stripTransfer) now).total →
      (initiate_transfer ss (some b) addr rem transfers fetched now).result
        = .err .insufficientBalance) ∧
    (b = (processTransfers (transfers.map stripTransfer) now).total →
      ∃ l, (initiate_transfer ss (some b) addr rem transfers fetched now).result = .ok l ∧
        l.length = (processTransfers (transfers.map stripTransfer) now).entries.length + ss ∧
        (∀ j, j < ss →
          l[(processTransfers (transfers.map stripTransfer) now).entries.length + j]?
            = some (inputEntryAt ss addr b
                (processTransfers (transfers.map stripTransfer) now).tag now j)) ∧
        (∀ tx ∈ l, tx.address ≠ rem)) ∧
    (∀ k : Int, 0 < k → b = (processTransfers (transfers.map stripTransfer) now).total + k →
      ∃ l, (initiate_transfer ss (some b) addr rem transfers fetched now).result = .ok l ∧
        l.length
          = (processTransfers (transfers.map stripTransfer) now).entries.length + ss + 1 ∧
        (∀ j, j < ss →
          l[(processTransfers (transfers.map stripTransfer) now).entries.length + j]?
            = some (inputEntryAt ss addr b
                (processTransfers (transfers.map stripTransfer) now).tag now j)) ∧
        l[(processTransfers (transfers.map stripTransfer) now).entries.length + ss]?
          = some (remainderEntry rem k
              (processTransfers (transfers.map stripTransfer) now).tag now) ∧
        (l.map Transaction.address).count rem = 1) := by
  have hFle := processTransfers_frags_le_entries (transfers.map stripTransfer) now
  refine ⟨?_, ?_, ?_⟩
  · intro hlt
    rw [initiate_insufficient ss b addr rem transfers fetched now hA hR hV
      (by omega) hlt]
  · intro hb
    rw [initiate_some_ok ss b addr rem transfers fetched now hA hR hV hpos (le_of_eq hb.symm)]
    rw [if_neg (by omega :
      ¬ (processTransfers (transfers.map stripTransfer) now).total < b)]
    refine ⟨_, rfl, ?_, ?_, ?_⟩
    · rw [bundle_add_trytes_length, bundle_finalize_length, List.length_append,
        add_entry_group_length]
    · intro j hj
      rw [bundle_add_trytes_get?_of_le _ _ _ (le_trans hFle (Nat.le_add_right _ _))]
      rw [bundle_finalize_get?]
      rw [List.getElem?_append_right (Nat.le_add_right _ _)]
      rw [Nat.add_sub_cancel_left]
      rw [add_entry_group_get? ss addr (0 - b) _ now j hj]
      rfl
    · intro tx htx
      obtain ⟨ty, hty, htyaddr, _⟩ := mem_bundle_add_trytes _ _ _ htx
      obtain ⟨tz, htz, htzaddr, _⟩ := mem_bundle_finalize _ _ hty
      rw [List.mem_append] at htz
      rcases htz with htz | htz
      · intro hcon
        apply rem_not_mem_loop_addresses (transfers.map stripTransfer) now rem hrt
        rw [List.mem_map]
        exact ⟨tz, htz, by rw [← htzaddr, ← htyaddr, ← hcon]⟩
      · obtain ⟨ha, _, _⟩ := mem_add_entry_group _ _ _ _ _ _ htz
        rw [htyaddr, htzaddr, ha]
        exact fun hcon => hra hcon.symm
  · intro k hk hbk
    rw [initiate_some_ok ss b addr rem transfers fetched now hA hR hV hpos (by omega)]
    rw [if_pos (by omega :
      (processTransfers (transfers.map stripTransfer) now).total < b)]
    have hbmt : b - (processTransfers (transfers.map stripTransfer) now).total = k := by
      omega
    rw [hbmt]
    refine ⟨_, rfl, ?_, ?_, ?_, ?_⟩
    · rw [bundle_add_trytes_length, bundle_finalize_length, List.length_append,
        List.length_append, add_entry_group_length, add_entry_group_length]
    · intro j hj
      rw [bundle_add_trytes_get?_of_le _ _ _
        (le_trans hFle (Nat.le_add_right _ _))]
      rw [bundle_finalize_get?]
      rw [List.append_assoc]
      rw [List.getElem?_append_right (Nat.le_add_right _ _)]
      rw [Nat.add_sub_cancel_left]
      rw [List.getElem?_append, if_pos (by rw [add_entry_group_length]; exact hj)]
      rw [add_entry_group_get? ss addr (0 - b) _ now j hj]
      rfl
    · rw [bundle_add_trytes_get?_of_le _ _ _
        (le_trans hFle (Nat.le_add_right _ _))]
      rw [bundle_finalize_get?]
      rw [List.append_assoc]
      rw [List.getElem?_append_right (Nat.le_add_right _ _)]
      rw [Nat.add_sub_cancel_left]
      rw [List.getElem?_append_right (by rw [add_entry_group_length])]
      rw [add_entry_group_length, Nat.sub_self]
      rw [add_entry_group_get? 1 rem k _ now 0 (by omega)]
      rfl
    · rw [bundle_add_trytes_map_address, bundle_finalize_map_address]
      rw [List.map_append, List.map_append]
      rw [List.count_append, List.count_append]
      rw [add_entry_group_map_address, add_entry_group_map_address]
      rw [List.count_replicate, List.count_replicate]
      rw [List.count_eq_zero.mpr (rem_not_mem_loop_addresses
        (transfers.map stripTransfer) now rem hrt)]
      simp [hra, Ne.symm hra]

/-- C3 witness: at security sum 2, total 5, override 11, the call
returns a 4-entry bundle whose input group sits at positions 1 and 2
and whose remainder entry of value 6 is last. -/
theorem C3_balance_boundary_amended_witness :
    (is_address msigAddress = true ∧
      0 < (processTransfers ([c2Transfer].map stripTransfer) 7).total ∧
      (11 : Int) = (processTransfers ([c2Transfer].map stripTransfer) 7).total + 6) ∧
    (∀ k : Int, 0 < k →
      (11 : Int) = (processTransfers ([c2Transfer].map stripTransfer) 7).total + k →
      ∃ l, (initiate_transfer 2 (some 11) msigAddress remAddress [c2Transfer] 0 7).result
          = .ok l ∧
        l.length
          = (processTransfers ([c2Transfer].map stripTransfer) 7).entries.length + 2 + 1 ∧
        (∀ j, j < 2 →
          l[(processTransfers ([c2Transfer].map stripTransfer) 7).entries.length + j]?
            = some (inputEntryAt 2 msigAddress 11
                (processTransfers ([c2Transfer].map stripTransfer) 7).tag 7 j)) ∧
        l[(processTransfers ([c2Transfer].map stripTransfer) 7).entries.length + 2]?
          = some (remainderEntry remAddress k
              (processTransfers ([c2Transfer].map stripTransfer) 7).tag 7) ∧
        (l.map Transaction.address).count remAddress = 1) :=
  ⟨⟨by decide, by decide, by decide⟩,
    (C3_balance_boundary_amended 2 11 msigAddress remAddress [c2Transfer] 0 7
      (by decide) (by decide) (by decide) (by decide) (by decide)
      (by decide)).2.2⟩

/-- C10: in every successfully initiated bundle, the entries appended
after the transfer entries — the multisig input group and, when
present, the remainder entry — carry the tag of the last transfer,
right-padded with the null symbol to the tag width. -/
theorem C10_input_and_remainder_carry_last_tag (ss : Nat) (b : Int)
    (addr rem : List Char) (transfers : List Transfer) (fetched now : Int)
    (hne : transfers ≠ [])
    (hss : 0 < ss)
    (hA : is_address addr = true) (hR : is_address rem = true)
    (hV : is_transfers_collection_valid (transfers.map stripTransfer) = true)
    (hpos : 0 < (processTransfers (transfers.map stripTransfer) now).total)
    (hle : (processTransfers (transfers.map stripTransfer) now).total ≤ b) :
    ∃ l, (initiate_transfer ss (some b) addr rem transfers fetched now).result = .ok l ∧
      (processTransfers (transfers.map stripTransfer) now).entries.length < l.length ∧
      ∀ tx ∈ l.drop (processTransfers (transfers.map stripTransfer) now).entries.length,
        tx.tag = right_pad_string ((transfers.getLast hne).tag.getD []) TAG_LENGTH '9' := by
  have hFle := processTransfers_frags_le_entries (transfers.map stripTransfer) now
  have hTSne : transfers.map stripTransfer ≠ [] := by
    simp [hne]
  have htag : (processTransfers (transfers.map stripTransfer) now).tag
      = right_pad_string ((transfers.getLast hne).tag.getD []) TAG_LENGTH '9' := by
    rw [processTransfers_tag (transfers.map stripTransfer) now hTSne]
    have h1 : (transfers.map stripTransfer).getLast hTSne
        = stripTransfer (transfers.getLast hne) := by
      have h2 : (transfers.map stripTransfer).getLast? = some
          (stripTransfer (transfers.getLast hne)) := by
        rw [List.getLast?_map, List.getLast?_eq_getLast transfers hne]
        rfl
      rw [List.getLast?_eq_getLast _ hTSne] at h2
      exact Option.some.inj h2
    rw [h1]
    rfl
  rw [initiate_some_ok ss b addr rem transfers fetched now hA hR hV hpos hle]
  refine ⟨_, rfl, ?_, ?_⟩
  · rw [bundle_add_trytes_length, bundle_finalize_length]
    split
    · rw [List.length_append, List.length_append, add_entry_group_length,
        add_entry_group_length]
      omega
    · rw [List.length_append, add_entry_group_length]
      omega
  · intro tx htx
    rw [bundle_add_trytes_drop_of_le _ _ _ hFle] at htx
    rw [bundle_finalize_drop] at htx
    rw [List.mem_map] at htx
    obtain ⟨ty, hty, rfl⟩ := htx
    obtain ⟨tz, htz, _, htag2⟩ := mem_bundle_finalize _ _ hty
    rw [withSentinel_tag, htag2]
    rw [← htag]
    split at htz
    · rw [List.append_assoc, List.drop_left] at htz
      rw [List.mem_append] at htz
      rcases htz with htz | htz
      · exact (mem_add_entry_group _ _ _ _ _ _ htz).2.1
      · exact (mem_add_entry_group _ _ _ _ _ _ htz).2.1
    · rw [List.drop_left] at htz
      exact (mem_add_entry_group _ _ _ _ _ _ htz).2.1

/-- C10 witness: on a concrete one-transfer call, every entry after the
transfer entry (the two input entries and the remainder) carries the
padded tag TAG of the (last) transfer. -/
theorem C10_input_and_remainder_carry_last_tag_witness :
    ([c2Transfer] ≠ [] ∧ 0 < (2 : Nat) ∧
      0 < (processTransfers ([c2Transfer].map stripTransfer) 7).total) ∧
    (∃ l, (initiate_transfer 2 (some 11) msigAddress remAddress [c2Transfer] 0 7).result
        = .ok l ∧
      (processTransfers ([c2Transfer].map stripTransfer) 7).entries.length < l.length ∧
      ∀ tx ∈ l.drop (processTransfers ([c2Transfer].map stripTransfer) 7).entries.length,
        tx.tag = right_pad_string ((([c2Transfer].getLast (by decide)).tag).getD [])
          TAG_LENGTH '9') :=
  ⟨⟨by decide, by decide, by decide⟩,
    C10_input_and_remainder_carry_last_tag 2 11 msigAddress remAddress [c2Transfer] 0 7
      (by decide) (by decide) (by decide) (by decide) (by decide) (by decide) (by decide)⟩

/- ---------------------------------------------------------------- -/
/- Claim theorems: concrete evaluations                              -/
/- ---------------------------------------------------------------- -/

/-- C1 (code_bug evaluation): building an address incrementally with
`add_address_digest` / `finalize_address` (Curl variant) and then
checking it with `validate_address` (Kerl variant) yields `false`, not
`true` as the claim states: the two functions use different sponge
variants. -/
theorem C1_validate_of_incremental_build_fails :
    add_address_digest digestA [] = .ok c1State ∧
    finalize_address c1State = .ok c1Address ∧
    validate_address c1Address [digestA] = .ok false := by
  refine ⟨by decide, by decide, by decide⟩

/-- C2 (code_bug evaluation): a freshly initiated bundle holds the
all-nine sentinel in every input-group entry (shown for the first
input entry, at position 1), yet `add_signature` returns the bundle
unchanged — the scan counts sentinel entries as already signed instead
of signing the first of them, so no fragment is ever written into a
fresh bundle. -/
theorem C2_fresh_unsigned_bundle_not_signed :
    c2Out.result = .ok c2Bundle ∧
    (c2Bundle.get? 1).map (fun tx => (tx.address, tx.signature_fragments))
      = some (msigAddress, some SIGNATURE_SENTINEL) ∧
    add_signature c2Bundle msigAddress cosignerKey = .ok c2Bundle := by
  refine ⟨by rfl, by rfl, by rfl⟩

/-- C9 (counterexample): `initiate_transfer` strips the checksum from
the caller's transfer address in place, so the transfer list observed
after the call differs from the one passed in — here even though the
call returns an error. -/
theorem C9_transfers_mutated_counterexample :
    c9Out.result = .err .insufficientBalance ∧
    c9Out.transfersAfter ≠ [c9Transfer] := by
  refine ⟨by decide, by decide⟩

/-- C7 (counterexample): `finalize_address` on the empty state string
and `add_address_digest` on a short (81 symbol) digest abort with an
out-of-bounds/length panic instead of returning a typed failure. -/
theorem C7_short_input_panics_counterexample :
    finalize_address [] = .panicked ∧
    add_address_digest (List.replicate 81 'A') [] = .panicked := by
  refine ⟨by decide, by decide⟩

/-- The scan of `add_signature` is a no-op whenever every entry at the
input address holds the all-nine sentinel (it only counts them). -/
theorem addSigScan_all_sentinel (ia : List Char) (kT : List Int) (sec : Nat) :
    ∀ (fuel i num : Nat) (b : List Transaction),
      (∀ tx ∈ b, tx.address = ia →
        is_nine_trytes (tx.signature_fragments.getD []) = true) →
      addSigScan ia kT sec fuel i num b = .ok b := by
  intro fuel
  induction fuel with
  | zero => intro i num b _; rfl
  | succ f ih =>
      intro i num b hb
      unfold addSigScan
      split
      · rename_i h
        by_cases haddr : (b[i].address == ia) = true
        · rw [if_pos haddr]
          rw [if_pos (hb _ (List.getElem_mem h) (eq_of_beq haddr))]
          exact ih (i + 1) (num + 1) b hb
        · rw [if_neg haddr]
          exact ih (i + 1) num b hb
      · rfl

/-- C7 amended: the address functions are total only on well-sized
inputs — `finalize_address` succeeds exactly when the state decodes to
`STATE_LENGTH` trits and otherwise aborts (panics) rather than
returning a typed `MalformedState` failure; `add_address_digest`
succeeds exactly when the digest holds at least 243 symbols; and
`add_signature` returns success without touching the bundle whenever
every entry at the input address still holds the unsigned sentinel. -/
theorem C7_totality_amended (st d pst : List Char) (bundle : List Transaction)
    (ia key : List Char) :
    (3 * st.length = STATE_LENGTH → ∃ a, finalize_address st = .ok a) ∧
    (3 * st.length ≠ STATE_LENGTH → finalize_address st = .panicked) ∧
    (243 ≤ d.length → ∃ r, add_address_digest d pst = .ok r) ∧
    (d.length < 243 → add_address_digest d pst = .panicked) ∧
    ((∀ tx ∈ bundle, tx.address = ia →
        is_nine_trytes (tx.signature_fragments.getD []) = true) →
      add_signature bundle ia key = .ok bundle) := by
  refine ⟨?_, ?_, ?_, ?_, ?_⟩
  · intro h
    unfold finalize_address
    rw [if_pos (by rw [trits_from_string_length]; exact h)]
    exact ⟨_, rfl⟩
  · intro h
    unfold finalize_address
    rw [if_neg (by rw [trits_from_string_length]; exact h)]
  · intro h
    unfold add_address_digest
    rw [if_pos (by simp only [STATE_LENGTH]; omega)]
    exact ⟨_, rfl⟩
  · intro h
    unfold add_address_digest
    rw [if_neg (by simp only [STATE_LENGTH]; omega)]
  · intro h
    unfold add_signature
    exact addSigScan_all_sentinel ia _ _ bundle.length 0 0 bundle h

/-- A bundle entry at the input address still holding a sentinel-valued
fragment slot. -/
def c7Entry : Transaction :=
  { signature_message_length := 2
    address := msigAddress
    value := -5
    tag := []
    timestamp := 7
    signature_fragments := some ['9']
    bundle := none }

/-- C7 amended witness: a 243-symbol state finalizes, a 243-symbol
digest absorbs, and signing a bundle whose only input-address entry is
still sentinel-valued returns it unchanged. -/
theorem C7_totality_amended_witness :
    (3 * (List.replicate 243 '9' : List Char).length = STATE_LENGTH ∧
      (243 : Nat) ≤ digestA.length ∧
      (∀ tx ∈ [c7Entry], tx.address = msigAddress →
        is_nine_trytes (tx.signature_fragments.getD []) = true)) ∧
    ((∃ a, finalize_address (List.replicate 243 '9') = .ok a) ∧
      (∃ r, add_address_digest digestA [] = .ok r) ∧
      add_signature [c7Entry] msigAddress cosignerKey = .ok [c7Entry]) :=
  ⟨⟨by decide, by decide, by decide⟩,
    ⟨(C7_totality_amended (List.replicate 243 '9') digestA [] [] [] []).1 (by decide),
     (C7_totality_amended [] digestA [] [] [] []).2.2.1 (by decide),
     (C7_totality_amended [] [] [] [c7Entry] msigAddress cosignerKey).2.2.2.2
       (by decide)⟩⟩

/-- C4 (counterexample): a message of length exactly 2 × 2187 gets
`signature_message_length` 3 — so the transfer occupies 3 bundle
entries — while the split produces only 2 fragments, refuting the
claimed one-entry-per-fragment correspondence (the third entry is left
for the sentinel). -/
theorem C4_exact_multiple_counterexample :
    smlOf c4Message = 3 ∧
    (fragsOf c4Message).length = 2 ∧
    (processTransfers [c4Transfer] 7).entries.length = 3 ∧
    (processTransfers [c4Transfer] 7).frags.length = 2 := by
  have hlen : c4Message.length = 4374 := by
    rw [show c4Message = List.replicate (2 * MESSAGE_LENGTH) 'A' from rfl,
      List.length_replicate]
    norm_num [MESSAGE_LENGTH]
  have h1 : smlOf c4Message = 3 := by
    unfold smlOf
    rw [hlen]
    norm_num [MESSAGE_LENGTH]
  have h2 : (fragsOf c4Message).length = 2 := by
    rw [fragsOf_length, hlen]
    norm_num [MESSAGE_LENGTH]
  refine ⟨h1, h2, ?_, ?_⟩
  · rw [processTransfers_entries]
    simp only [List.flatMap_cons, List.flatMap_nil, List.append_nil]
    rw [show c4Transfer.message = c4Message from rfl]
    rw [add_entry_group_length, h1]
  · rw [processTransfers_frags]
    simp only [List.flatMap_cons, List.flatMap_nil, List.append_nil]
    rw [show c4Transfer.message = c4Message from rfl]
    exact h2

/-- C4 amended: each transfer's message is split into consecutive
fragments right-padded to the fragment width, producing
`max 1 ⌈len/width⌉` fragments, and a message within one width occupies
one padded fragment with `signature_message_length` 1; the recorded
`signature_message_length` (which is also the number of entries the
transfer occupies) equals the fragment count except when the message
length is an exact multiple `k·width` with `k ≥ 2`, where it exceeds
the fragment count by one. -/
theorem C4_message_splitting_amended (msg : List Char) :
    (msg.length ≤ MESSAGE_LENGTH →
      smlOf msg = 1 ∧ fragsOf msg = [right_pad_string msg MESSAGE_LENGTH '9']) ∧
    ((fragsOf msg).length
        = max 1 ((msg.length + (MESSAGE_LENGTH - 1)) / MESSAGE_LENGTH)) ∧
    (∀ i fr, (fragsOf msg).get? i = some fr →
      fr = right_pad_string ((msg.drop (MESSAGE_LENGTH * i)).take MESSAGE_LENGTH)
        MESSAGE_LENGTH '9') ∧
    (∀ (a : List Char) (v : Int) (tg : List Char) (ts : Int),
      (add_entry_group (smlOf msg) a v tg ts).length = smlOf msg) ∧
    (¬ (MESSAGE_LENGTH < msg.length ∧ msg.length % MESSAGE_LENGTH = 0) →
      smlOf msg = (fragsOf msg).length) ∧
    (MESSAGE_LENGTH < msg.length → msg.length % MESSAGE_LENGTH = 0 →
      smlOf msg = (fragsOf msg).length + 1) := by
  refine ⟨?_, ?_, ?_, ?_, ?_, ?_⟩
  · intro h
    constructor
    · unfold smlOf
      rw [if_neg (by omega)]
    · unfold fragsOf
      rw [if_neg (by omega)]
      rw [List.take_of_length_le h]
  · rw [fragsOf_length]
    split <;> (simp only [MESSAGE_LENGTH] at *; omega)
  · intro i fr h
    unfold fragsOf at h
    split at h
    · have hi : i < (fragmentLoop msg).length := by
        rcases List.get?_eq_some.mp h with ⟨hw, _⟩
        exact hw
      unfold fragmentLoop at h hi
      rw [fragmentLoopFuel_get? msg.length msg i (Nat.le_refl _) hi] at h
      exact (Option.some.inj h).symm
    · cases i with
      | zero =>
          simp only [List.get?_cons_zero, Option.some.injEq] at h
          rw [← h]
          simp
      | succ i' => simp at h
  · intro a v tg ts
    exact add_entry_group_length _ _ _ _ _
  · intro h
    rw [fragsOf_length]
    unfold smlOf
    split
    all_goals simp only [MESSAGE_LENGTH] at *
    all_goals omega
  · intro h1 h2
    rw [fragsOf_length]
    unfold smlOf
    rw [if_pos h1, if_pos h1]
    simp only [MESSAGE_LENGTH] at *
    omega

/-- C4 amended witness: a 5000-symbol message (between 2× and 3× the
width, the claim's "2.5×" case) yields 3 fragments and
`signature_message_length` 3, and a 10-symbol message occupies exactly
one right-padded fragment. -/
theorem C4_message_splitting_amended_witness :
    (¬ (MESSAGE_LENGTH < (List.replicate 5000 'A' : List Char).length ∧
        (List.replicate 5000 'A' : List Char).length % MESSAGE_LENGTH = 0) ∧
      (List.replicate 10 'A' : List Char).length ≤ MESSAGE_LENGTH) ∧
    (smlOf (List.replicate 5000 'A') = (fragsOf (List.replicate 5000 'A')).length ∧
      smlOf (List.replicate 5000 'A') = 3 ∧
      (smlOf (List.replicate 10 'A') = 1 ∧
        fragsOf (List.replicate 10 'A')
          = [right_pad_string (List.replicate 10 'A') MESSAGE_LENGTH '9'])) :=
  ⟨⟨by rw [List.length_replicate]; norm_num [MESSAGE_LENGTH],
      by rw [List.length_replicate]; norm_num [MESSAGE_LENGTH]⟩,
    ⟨(C4_message_splitting_amended (List.replicate 5000 'A')).2.2.2.2.1
        (by rw [List.length_replicate]; norm_num [MESSAGE_LENGTH]),
      by unfold smlOf; rw [List.length_replicate]; norm_num [MESSAGE_LENGTH],
      (C4_message_splitting_amended (List.replicate 10 'A')).1
        (by rw [List.length_replicate]; norm_num [MESSAGE_LENGTH])⟩⟩

/-- The entry as left by the overwriting call of `add_signature`. -/
def c6Modified : Transaction :=
  { c6Entry with signature_fragments := some (List.replicate MESSAGE_LENGTH 'A') }

/-- One scan step of `add_signature` on a matching entry whose fragment
slot is not the sentinel: the entry group starting there gets signed. -/
theorem addSigScan_succ_sign (ia : List Char) (kT : List Int) (sec : Nat)
    (fuel i num : Nat) (b : List Transaction) (h : i < b.length)
    (haddr : (b[i].address == ia) = true)
    (hnine : is_nine_trytes (b[i].signature_fragments.getD []) = false)
    (hklen : KEY_FRAGMENT_LENGTH ≤ kT.length) :
    addSigScan ia kT sec (fuel + 1) i num b =
      signRest kT (normalized_bundle (b[i].bundle.getD [])) num i (sec - 1) 1
        (b.set i { b[i] with
          signature_fragments := some (trytes (signature_fragment
            (normalizedChunk (normalized_bundle (b[i].bundle.getD [])) (num % 3))
            (kT.take KEY_FRAGMENT_LENGTH))) }) := by
  unfold addSigScan
  rw [dif_pos h, if_pos haddr, if_neg (by simp [hnine]), if_pos hklen]

/-- The sentinel test rejects a repeated non-null symbol. -/
theorem is_nine_trytes_replicate_B :
    is_nine_trytes (List.replicate MESSAGE_LENGTH 'B') = false := by
  unfold is_nine_trytes
  have hall : (List.replicate MESSAGE_LENGTH 'B').all (fun c => c == '9') = false := by
    rw [Bool.eq_false_iff]
    intro hcon
    rw [List.all_eq_true] at hcon
    have : 'B' ∈ List.replicate MESSAGE_LENGTH 'B' :=
      List.mem_replicate.mpr ⟨by norm_num [MESSAGE_LENGTH], rfl⟩
    have := hcon 'B' this
    simp at this
  rw [hall, Bool.and_false]

/-- The normalized stand-in bundle hash is the all-zero row. -/
theorem normalized_bundle_standin :
    normalized_bundle BUNDLE_HASH_STANDIN = List.replicate 81 0 := by
  unfold normalized_bundle BUNDLE_HASH_STANDIN right_pad_string
  rw [List.length_replicate]
  rw [Nat.sub_self, List.replicate_zero, List.append_nil]
  rw [List.take_replicate]
  rw [List.map_replicate]
  rw [show tryteValue '9' = (0 : Int) from by decide]
  rfl

/-- C6 (code_bug evaluation): on a bundle whose only entry at the input
address already carries a non-sentinel signature fragment,
`add_signature` succeeds but overwrites that fragment (here with the
fragment derived from the key) instead of being a no-op. -/
theorem C6_signed_entry_overwritten :
    c6Result = .ok [c6Modified] ∧ c6Modified ≠ c6Entry := by
  constructor
  · have hkl : c6Key.length = MESSAGE_LENGTH := by
      rw [show c6Key = List.replicate MESSAGE_LENGTH 'A' from rfl, List.length_replicate]
    have hkT : (trits_from_string c6Key).length = KEY_FRAGMENT_LENGTH := by
      rw [trits_from_string_length, hkl]
      norm_num [MESSAGE_LENGTH, KEY_FRAGMENT_LENGTH]
    have hsec : c6Key.length / MESSAGE_LENGTH = 1 := by
      rw [hkl]
      exact Nat.div_self (by norm_num [MESSAGE_LENGTH])
    show add_signature [c6Entry] msigAddress c6Key = .ok [c6Modified]
    unfold add_signature
    rw [show ([c6Entry] : List Transaction).length = 0 + 1 from rfl]
    rw [addSigScan_succ_sign msigAddress (trits_from_string c6Key)
      (c6Key.length / MESSAGE_LENGTH) 0 0 0 [c6Entry] (by norm_num)
      (by
        simp only [List.getElem_cons_zero]
        exact beq_self_eq_true _)
      (by
        simp only [List.getElem_cons_zero]
        show is_nine_trytes ((some (List.replicate MESSAGE_LENGTH 'B')).getD []) = false
        rw [Option.getD_some]
        exact is_nine_trytes_replicate_B)
      (by rw [hkT])]
    rw [hsec]
    rw [show (1 : Nat) - 1 = 0 from rfl]
    show RRes.ok _ = _
    refine congrArg RRes.ok ?_
    simp only [List.getElem_cons_zero]
    rw [show (c6Entry.bundle.getD []) = BUNDLE_HASH_STANDIN from rfl]
    rw [normalized_bundle_standin]
    rw [show normalizedChunk (List.replicate 81 0) (0 % 3) = List.replicate 27 0 by
      unfold normalizedChunk
      rw [Nat.zero_mod, Nat.zero_mul, List.drop_zero, List.take_replicate]
      norm_num]
    rw [show signature_fragment (List.replicate 27 0)
        ((trits_from_string c6Key).take KEY_FRAGMENT_LENGTH)
        = (trits_from_string c6Key).take KEY_FRAGMENT_LENGTH by
      unfold signature_fragment
      rw [show (List.replicate 27 0 : List Int).headD 0 = 0 by
        rw [show (27 : Nat) = 26 + 1 from rfl, List.replicate_succ]
        rfl]
      rw [show ((0 : Int)).natAbs = 0 from rfl, List.rotate_zero]]
    rw [List.take_of_length_le (le_of_eq hkT)]
    rw [show trits_from_string c6Key
        = trits_from_string (List.replicate MESSAGE_LENGTH 'A') from rfl]
    rw [trytes_trits_replicate 'A' (by decide) MESSAGE_LENGTH]
    rfl
  · intro hcon
    have h2 := congrArg Transaction.signature_fragments hcon
    rw [show c6Modified.signature_fragments
        = some (List.replicate MESSAGE_LENGTH 'A') from rfl] at h2
    rw [show c6Entry.signature_fragments
        = some (List.replicate MESSAGE_LENGTH 'B') from rfl] at h2
    have h3 := Option.some.inj h2
    have h4 := congrArg List.head? h3
    rw [show (MESSAGE_LENGTH : Nat) = 2186 + 1 from rfl] at h4
    rw [List.replicate_succ, List.replicate_succ] at h4
    simp at h4

/- ---------------------------------------------------------------- -/
/- Supplementary: the incremental build agrees with one Curl session -/
/- ---------------------------------------------------------------- -/

theorem tryteValue_bounds (c : Char) : -13 ≤ tryteValue c ∧ tryteValue c ≤ 13 := by
  unfold tryteValue
  split
  · exact ⟨by norm_num, by norm_num⟩
  · split
    · rename_i hne hAZ
      have h65 : 65 ≤ c.toNat := by
        have := hAZ.1
        rw [Char.le_def] at this
        exact this
      have h90 : c.toNat ≤ 90 := by
        have := hAZ.2
        rw [Char.le_def] at this
        exact this
      split
      · rename_i hle
        constructor <;> omega
      · rename_i hgt
        constructor <;> omega
    · exact ⟨by norm_num, by norm_num⟩

theorem charToTrits_valid (c : Char) :
    ∀ x ∈ charToTrits c, x = -1 ∨ x = 0 ∨ x = 1 := by
  obtain ⟨hl, hu⟩ := tryteValue_bounds c
  intro x hx
  unfold charToTrits at hx
  simp only [List.mem_cons, List.not_mem_nil, or_false] at hx
  rcases hx with rfl | rfl | rfl <;> omega

theorem trits_from_string_valid (s : List Char) :
    ∀ x ∈ trits_from_string s, x = -1 ∨ x = 0 ∨ x = 1 := by
  intro x hx
  rw [trits_from_string, List.mem_flatMap] at hx
  obtain ⟨c, _, hc⟩ := hx
  exact charToTrits_valid c x hc

theorem charToTrits_charOfValue (a b c : Int)
    (ha : a = -1 ∨ a = 0 ∨ a = 1) (hb : b = -1 ∨ b = 0 ∨ b = 1)
    (hc : c = -1 ∨ c = 0 ∨ c = 1) :
    charToTrits (charOfValue (a + 3 * b + 9 * c)) = [a, b, c] := by
  rcases ha with rfl | rfl | rfl <;> rcases hb with rfl | rfl | rfl <;>
    rcases hc with rfl | rfl | rfl <;> decide

theorem trytes_length : ∀ t : List Int, (trytes t).length = t.length / 3 := by
  have key : ∀ (n : Nat) (t : List Int), t.length ≤ n →
      (trytes t).length = t.length / 3 := by
    intro n
    induction n with
    | zero =>
        intro t h
        have : t = [] := List.eq_nil_of_length_eq_zero (by omega)
        subst this
        rfl
    | succ m ih =>
        intro t h
        match t with
        | [] => rfl
        | [x] => simp [trytes]
        | [x, y] => simp [trytes]
        | a :: b :: c :: rest =>
            rw [trytes_cons3, List.length_cons, ih rest (by
              simp only [List.length_cons] at h
              omega)]
            simp only [List.length_cons]
            omega
  exact fun t => key t.length t (Nat.le_refl _)

theorem trits_trytes_id : ∀ (n : Nat) (t : List Int), t.length = 3 * n →
    (∀ x ∈ t, x = -1 ∨ x = 0 ∨ x = 1) → trits_from_string (trytes t) = t := by
  intro n
  induction n with
  | zero =>
      intro t h _
      have : t = [] := List.eq_nil_of_length_eq_zero (by omega)
      subst this
      rfl
  | succ m ih =>
      intro t hlen hv
      match t with
      | [] => simp at hlen
      | [_] => simp at hlen; omega
      | [_, _] => simp at hlen; omega
      | a :: b :: c :: rest =>
          rw [trytes_cons3]
          rw [trits_from_string, List.flatMap_cons]
          rw [charToTrits_charOfValue a b c (hv a (by simp)) (hv b (by simp))
            (hv c (by simp))]
          rw [show (trytes rest).flatMap charToTrits
              = trits_from_string (trytes rest) from rfl]
          rw [ih rest (by simp only [List.length_cons] at hlen; omega)
            (fun x hx => hv x (by simp [hx]))]
          rfl

theorem absorbWithFuel_cons (t : List Int → List Int) (f : Nat) (st : List Int)
    (x : Int) (rest : List Int) :
    absorbWithFuel t (f + 1) st (x :: rest) =
      absorbWithFuel t f
        (t ((x :: rest).take HASH_LENGTH ++ st.drop ((x :: rest).take HASH_LENGTH).length))
        ((x :: rest).drop HASH_LENGTH) := rfl

theorem absorbWithFuel_curl_length :
    ∀ (fuel : Nat) (inp st : List Int), st.length = STATE_LENGTH →
      (absorbWithFuel curlTransform fuel st inp).length = STATE_LENGTH := by
  intro fuel
  induction fuel with
  | zero =>
      intro inp st h
      cases inp <;> exact h
  | succ f ih =>
      intro inp st h
      cases inp with
      | nil => exact h
      | cons x rest =>
          rw [absorbWithFuel_cons]
          apply ih
          unfold curlTransform
          rw [List.length_rotate, List.length_append, List.length_drop,
            List.length_take]
          simp only [STATE_LENGTH, HASH_LENGTH] at *
          omega

theorem absorbWithFuel_curl_valid :
    ∀ (fuel : Nat) (inp st : List Int),
      (∀ x ∈ st, x = -1 ∨ x = 0 ∨ x = 1) →
      (∀ x ∈ inp, x = -1 ∨ x = 0 ∨ x = 1) →
      ∀ y ∈ absorbWithFuel curlTransform fuel st inp, y = -1 ∨ y = 0 ∨ y = 1 := by
  intro fuel
  induction fuel with
  | zero =>
      intro inp st hst _ y hy
      cases inp with
      | nil => exact hst y hy
      | cons a l => exact hst y hy
  | succ f ih =>
      intro inp st hst hinp y hy
      cases inp with
      | nil => exact hst y hy
      | cons x rest =>
          rw [absorbWithFuel_cons] at hy
          refine ih _ _ ?_ ?_ y hy
          · intro z hz
            unfold curlTransform at hz
            rw [List.mem_rotate] at hz
            rw [List.mem_append] at hz
            rcases hz with hz | hz
            · exact hinp z (List.take_subset _ _ hz)
            · exact hst z (List.drop_subset _ _ hz)
          · intro z hz
            exact hinp z (List.drop_subset _ _ hz)

theorem zeroState_valid : ∀ x ∈ zeroState, x = -1 ∨ x = 0 ∨ x = 1 := by
  intro x hx
  rw [zeroState, List.mem_replicate] at hx
  right
  left
  exact hx.2

theorem with_length_exact (s : List Char) :
    trits_from_string_with_length s (s.length * 3) = trits_from_string s := by
  unfold trits_from_string_with_length
  dsimp only
  rw [List.take_of_length_le (by rw [trits_from_string_length]; omega)]
  have h0 : s.length * 3 - (trits_from_string s).length = 0 := by
    rw [trits_from_string_length]
    omega
  rw [h0, List.replicate_zero, List.append_nil]

theorem trytes_state_not_empty (s : List Int) (hs : s.length = STATE_LENGTH) :
    (trytes s).isEmpty = false := by
  have hl : (trytes s).length = 243 := by
    rw [trytes_length, hs]
    rfl
  cases he : (trytes s) with
  | nil => rw [he] at hl; simp at hl
  | cons a l => rfl

/-- One incremental step on a serialized well-formed state equals one
sponge absorption on the underlying state. -/
theorem add_address_digest_step (d : List Char) (s : List Int)
    (hd : d.length = 243) (hs : s.length = STATE_LENGTH)
    (hv : ∀ x ∈ s, x = -1 ∨ x = 0 ∨ x = 1) :
    add_address_digest d (trytes s) =
      .ok (trytes (absorbChunks curlTransform s (trits_from_string d))) := by
  unfold add_address_digest
  rw [trytes_state_not_empty s hs]
  have hlen3 : (trytes s).length = 243 := by
    rw [trytes_length, hs]
    rfl
  have hroundtrip : trits_from_string_with_length (trytes s) (d.length * 3) = s := by
    have hts : (trits_from_string (trytes s)) = s :=
      trits_trytes_id 243 s (by rw [hs]; rfl) hv
    unfold trits_from_string_with_length
    dsimp only
    rw [hts]
    rw [List.take_of_length_le (by rw [hs, hd]; norm_num [STATE_LENGTH])]
    have h0 : d.length * 3 - s.length = 0 := by
      rw [hs, hd]
      norm_num [STATE_LENGTH]
    rw [h0, List.replicate_zero, List.append_nil]
  simp only [Bool.false_eq_true, if_false]
  rw [hroundtrip]
  rw [if_pos (by rw [hd]; norm_num [STATE_LENGTH])]
  rw [List.take_of_length_le (le_of_eq hs)]
  rw [show trits_from_string_with_length d (d.length * 3) = trits_from_string d
    from with_length_exact d]

/-- The first incremental step (no prior state) absorbs into the zero
state. -/
theorem add_address_digest_first (d : List Char) (hd : d.length = 243) :
    add_address_digest d [] =
      .ok (trytes (absorbChunks curlTransform zeroState (trits_from_string d))) := by
  unfold add_address_digest
  rw [show (([] : List Char).isEmpty) = true from rfl]
  simp only [if_true]
  rw [if_pos (by rw [hd]; norm_num [STATE_LENGTH])]
  rw [show List.replicate (d.length * 3) (0 : Int) = zeroState by
    rw [hd]; rfl]
  rw [List.take_of_length_le (by rw [zeroState, List.length_replicate])]
  rw [show trits_from_string_with_length d (d.length * 3) = trits_from_string d
    from with_length_exact d]

/-- The serialized incremental chain, started from the empty state
string. -/
def chainAbsorb (ds : List (List Char)) : RRes (List Char) :=
  ds.foldl (fun acc d =>
    match acc with
    | RRes.ok s => add_address_digest d s
    | e => e) (RRes.ok [])

/-- The state of a single Curl session absorbing all digests in
order. -/
def oneSessionState (ds : List (List Char)) : List Int :=
  ds.foldl (fun st d => absorbChunks curlTransform st (trits_from_string d)) zeroState

theorem chainAbsorb_inv :
    ∀ (rest : List (List Char)) (s : List Int),
      s.length = STATE_LENGTH → (∀ x ∈ s, x = -1 ∨ x = 0 ∨ x = 1) →
      (∀ d ∈ rest, d.length = 243) →
      rest.foldl (fun acc d =>
          match acc with
          | RRes.ok s => add_address_digest d s
          | e => e) (RRes.ok (trytes s))
        = .ok (trytes (rest.foldl
            (fun st d => absorbChunks curlTransform st (trits_from_string d)) s)) := by
  intro rest
  induction rest with
  | nil => intro s _ _ _; rfl
  | cons d tail ih =>
      intro s hs hv hd
      rw [List.foldl_cons, List.foldl_cons]
      rw [show (match RRes.ok (trytes s) with
          | RRes.ok s => add_address_digest d s
          | e => e) = add_address_digest d (trytes s) from rfl]
      rw [add_address_digest_step d s (hd d (by simp)) hs hv]
      exact ih _ (absorbWithFuel_curl_length _ _ _ hs)
        (absorbWithFuel_curl_valid _ _ _ hv (trits_from_string_valid d))
        (fun d' h' => hd d' (by simp [h']))

theorem foldl_absorb_length :
    ∀ (rest : List (List Char)) (s : List Int), s.length = STATE_LENGTH →
      (rest.foldl (fun st d => absorbChunks curlTransform st (trits_from_string d))
        s).length = STATE_LENGTH := by
  intro rest
  induction rest with
  | nil => intro s hs; exact hs
  | cons d tail ih =>
      intro s hs
      rw [List.foldl_cons]
      exact ih _ (absorbWithFuel_curl_length _ _ _ hs)

theorem foldl_absorb_valid :
    ∀ (rest : List (List Char)) (s : List Int),
      (∀ x ∈ s, x = -1 ∨ x = 0 ∨ x = 1) →
      ∀ y ∈ rest.foldl (fun st d => absorbChunks curlTransform st (trits_from_string d)) s,
        y = -1 ∨ y = 0 ∨ y = 1 := by
  intro rest
  induction rest with
  | nil => intro s hs; exact hs
  | cons d tail ih =>
      intro s hs
      rw [List.foldl_cons]
      exact ih _ (absorbWithFuel_curl_valid _ _ _ hs (trits_from_string_valid d))

/-- Incremental equivalence (the true half of the spec's C1 testable
property): for a non-empty list of full-width digests, chaining
`add_address_digest` from an empty state and finalizing yields exactly
the address of one Curl session absorbing all digests in order. -/
theorem incremental_chain_equals_one_session (ds : List (List Char))
    (hne : ds ≠ []) (hd : ∀ d ∈ ds, d.length = 243) :
    (match chainAbsorb ds with
      | .ok s => finalize_address s
      | .err e => .err e
      | .panicked => .panicked)
      = .ok (trytes (squeezeHash (oneSessionState ds))) := by
  have hfin : ∀ (f : List Int), f.length = STATE_LENGTH →
      (∀ x ∈ f, x = -1 ∨ x = 0 ∨ x = 1) →
      finalize_address (trytes f) = .ok (trytes (squeezeHash f)) := by
    intro f hf hfv
    unfold finalize_address
    rw [trits_trytes_id 243 f (by rw [hf]; rfl) hfv]
    rw [if_pos hf]
  cases ds with
  | nil => exact absurd rfl hne
  | cons d rest =>
      unfold chainAbsorb oneSessionState
      rw [List.foldl_cons, List.foldl_cons]
      rw [show (match RRes.ok ([] : List Char) with
          | RRes.ok s => add_address_digest d s
          | e => e) = add_address_digest d [] from rfl]
      rw [add_address_digest_first d (hd d (by simp))]
      rw [chainAbsorb_inv rest (absorbChunks curlTransform zeroState (trits_from_string d))
        (absorbWithFuel_curl_length _ _ _ (by rw [zeroState, List.length_replicate]))
        (absorbWithFuel_curl_valid _ _ _ zeroState_valid (trits_from_string_valid d))
        (fun d' h' => hd d' (by simp [h']))]
      exact hfin _
        (foldl_absorb_length rest _
          (absorbWithFuel_curl_length _ _ _ (by rw [zeroState, List.length_replicate])))
        (foldl_absorb_valid rest _
          (absorbWithFuel_curl_valid _ _ _ zeroState_valid (trits_from_string_valid d)))

end Multisig
